import Mathlib

/-!
# Verification of the r2-image-worker upload/dedup/retrieval engine

Shallow embedding of `src/index.ts` (a Cloudflare Worker storing uploads in an
R2 bucket).  Strings are Lean `String`s (lists of characters), byte payloads
are `List Nat`, the R2 bucket is a list of stored objects in listing order.
Randomness (`nanoid()`), the clock (`Date.now()`), the SHA-256 digest and the
storage-computed entity tag are passed in as explicit parameters, so that every
definition is executable.
-/

/-! ## Character and string helpers -/

/-- `listLeads pat l` is true when `pat` is a leading segment of `l`.
This models JavaScript `String.prototype.startsWith` and the R2 `list`
key-prefix filter at character granularity. -/
def listLeads : List Char → List Char → Bool
  | [], _ => true
  | _ :: _, [] => false
  | a :: as, b :: bs => a == b && listLeads as bs

/-- String version of `listLeads`: `strLeads pat s` models `s.startsWith(pat)`. -/
def strLeads (pat s : String) : Bool :=
  listLeads pat.toList s.toList

/-- Code points matched by the JavaScript regex class `\s`. -/
def jsWsVals : List Nat :=
  [0x09, 0x0A, 0x0B, 0x0C, 0x0D, 0x20, 0xA0, 0x1680,
   0x2000, 0x2001, 0x2002, 0x2003, 0x2004, 0x2005, 0x2006, 0x2007,
   0x2008, 0x2009, 0x200A, 0x2028, 0x2029, 0x202F, 0x205F, 0x3000, 0xFEFF]

/-- Whether a character is JavaScript whitespace (`\s`). -/
def isJsWs (c : Char) : Bool :=
  c.toNat ∈ jsWsVals

/-- Characters kept by `sanitizeFilename`: the class `[a-zA-Z0-9_.-]`
of `src/index.ts` line 38. -/
def isSafeChar (c : Char) : Bool :=
  (97 ≤ c.toNat && c.toNat ≤ 122) || (65 ≤ c.toNat && c.toNat ≤ 90) ||
  (48 ≤ c.toNat && c.toNat ≤ 57) || c.toNat == 95 || c.toNat == 46 || c.toNat == 45

/-- `name.substring(name.lastIndexOf('/') + 1)`: keep the segment after the
last `/` (the whole string when there is none). -/
def afterLastSlash (l : List Char) : List Char :=
  ((l.reverse.takeWhile (fun c => c != '/')).reverse)

/-- Auxiliary for `.replace(/\s+/g, '_')`: the flag records whether the
previous character was whitespace (a run emits a single underscore). -/
def collapseWsAux : List Char → Bool → List Char
  | [], _ => []
  | c :: rest, prevWs =>
    if isJsWs c then
      if prevWs then collapseWsAux rest true
      else '_' :: collapseWsAux rest true
    else c :: collapseWsAux rest false

/-- `.replace(/\s+/g, '_')`: every maximal whitespace run becomes one `_`. -/
def collapseWs (l : List Char) : List Char :=
  collapseWsAux l false

/-- `sanitizeFilename` from `src/index.ts` lines 33-41: drop the path part,
collapse whitespace runs to `_`, delete characters outside `[a-zA-Z0-9_.-]`,
truncate to 100 characters. -/
def sanitizeFilename (name : String) : String :=
  let baseName := afterLastSlash name.toList
  let sanitized := (collapseWs baseName).filter isSafeChar
  String.mk (sanitized.take 100)

/-! ## MIME extension lookup (hono `hono/utils/mime`) -/

/-- The `baseMimes` extension → MIME-type table of `hono/utils/mime`,
which `src/index.ts` imports (`getExtension`). -/
def baseMimes : List (String × String) :=
  [("aac", "audio/aac"), ("avi", "video/x-msvideo"), ("avif", "image/avif"),
   ("av1", "video/av1"), ("bin", "application/octet-stream"), ("bmp", "image/bmp"),
   ("css", "text/css"), ("csv", "text/csv"), ("eot", "application/vnd.ms-fontobject"),
   ("epub", "application/epub+zip"), ("gif", "image/gif"), ("gz", "application/gzip"),
   ("htm", "text/html"), ("html", "text/html"), ("ico", "image/x-icon"),
   ("ics", "text/calendar"), ("jpeg", "image/jpeg"), ("jpg", "image/jpeg"),
   ("js", "text/javascript"), ("json", "application/json"),
   ("jsonld", "application/ld+json"), ("map", "application/json"),
   ("mid", "audio/x-midi"), ("midi", "audio/x-midi"), ("mjs", "text/javascript"),
   ("mp3", "audio/mpeg"), ("mp4", "video/mp4"), ("mpeg", "video/mpeg"),
   ("oga", "audio/ogg"), ("ogv", "video/ogg"), ("ogx", "application/ogg"),
   ("opus", "audio/opus"), ("otf", "font/otf"), ("pdf", "application/pdf"),
   ("png", "image/png"), ("rtf", "application/rtf"), ("svg", "image/svg+xml"),
   ("tif", "image/tiff"), ("tiff", "image/tiff"), ("ts", "video/mp2t"),
   ("ttf", "font/ttf"), ("txt", "text/plain"), ("wasm", "application/wasm"),
   ("webm", "video/webm"), ("weba", "audio/webm"), ("webp", "image/webp"),
   ("woff", "font/woff"), ("woff2", "font/woff2"), ("xhtml", "application/xhtml+xml"),
   ("xml", "application/xml"), ("zip", "application/zip"),
   ("3gp", "video/3gpp"), ("3g2", "video/3gpp2"),
   ("gltf", "model/gltf+json"), ("glb", "model/gltf-binary")]

/-- hono `getExtension`: first table entry whose MIME type equals the
argument, if any. -/
def getExtension (mimeType : String) : Option String :=
  (baseMimes.find? (fun p => p.2 == mimeType)).map (fun p => p.1)

/-! ## Unique key generation (`generateUniqueFilename`, lines 44-64) -/

/-- The match of the regex `\.([^.]+)$` on the sanitized name, dot included
(empty list when the regex does not match). -/
def extFromName (sanitized : List Char) : List Char :=
  let r := sanitized.reverse
  let e := r.takeWhile (fun c => c != '.')
  if e.isEmpty then []
  else if e.length < r.length then '.' :: e.reverse else []

/-- `sanitized.substring(0, sanitized.lastIndexOf(extension))` when the
extension regex matched, otherwise the whole sanitized name.  Since the
extension is a suffix, `lastIndexOf` lands exactly at the suffix start. -/
def baseFromName (sanitized : List Char) : List Char :=
  let ext := extFromName sanitized
  if ext.isEmpty then sanitized else sanitized.take (sanitized.length - ext.length)

/-- `generateUniqueFilename` from `src/index.ts` lines 44-64.  `nid` stands
for the `nanoid()` call.  When the sanitized name has no trailing extension,
the code calls `getExtension` on the *basename* (lines 52-55), then strips a
dangling trailing dot (lines 57-60). -/
def generateUniqueFilename (originalFilename : String) (nid : String) : String :=
  let sanitized := (sanitizeFilename originalFilename).toList
  let ext0 := extFromName sanitized
  let base0 := baseFromName sanitized
  let ext1 :=
    if ext0.isEmpty then
      match getExtension (String.mk base0) with
      | some me => '.' :: me.toList
      | none => []
    else ext0
  let base1 := if base0.getLast? == some '.' && ext1.isEmpty then base0.dropLast else base0
  String.mk (base1 ++ '_' :: nid.toList ++ ext1)

/-! ## Storage model -/

/-- The `customMetadata` record written at upload time
(`FileMetadata`, `src/index.ts` lines 23-28; values are stringified before
the `put`, which is injective on this record, so we keep them typed). -/
structure FileMetadata where
  originalHash : String
  originalFilename : String
  uploadTimestamp : Nat
  mimeType : String
deriving DecidableEq

/-- One object in the R2 bucket: key, payload bytes, `httpMetadata.contentType`,
custom metadata, and the storage-assigned entity tag (`httpEtag`). -/
structure StoredObject where
  key : String
  payload : List Nat
  contentType : String
  customMetadata : FileMetadata
  etag : String
deriving DecidableEq

/-- The bucket, as the listing-ordered list of its objects. -/
abbrev Bucket := List StoredObject

/-- A storage interaction performed by a handler, for stating which calls a
request path makes (`list`/`head`/`get`/`put`). -/
inductive StorageOp where
  | list (pre : String) (cursor : Nat)
  | head (key : String)
  | get (key : String)
  | put (key : String)
deriving DecidableEq

/-- Whether a storage interaction is a write. -/
def isPutOp : StorageOp → Bool
  | StorageOp.put _ => true
  | _ => false

/-- `BUCKET.head(key)`: the object stored at `key`, if any. -/
def bucketHead (b : Bucket) (key : String) : Option StoredObject :=
  b.find? (fun o => o.key == key)

/-- `BUCKET.get(key)`: the object stored at `key`, if any. -/
def bucketGet (b : Bucket) (key : String) : Option StoredObject :=
  b.find? (fun o => o.key == key)

/-- `BUCKET.put(key, …)`: overwrite the object at the key when present,
otherwise append it to the listing. -/
def bucketPut (b : Bucket) (o : StoredObject) : Bucket :=
  if b.any (fun x => x.key == o.key) then
    b.map (fun x => if x.key == o.key then o else x)
  else b ++ [o]

/-- The objects `BUCKET.list({ prefix })` ranges over: those whose key has
the given leading segment, in listing order. -/
def bucketFiltered (b : Bucket) (pre : String) : List StoredObject :=
  b.filter (fun o => strLeads pre o.key)

/-! ## Duplicate detection (`findDuplicateFile`, lines 67-92) -/

/-- The body of the `for (const object of listed.objects)` loop: `head` each
listed key and return it when its `originalHash` metadata equals the hash.
Also returns the `head` calls performed. -/
def scanPage (b : Bucket) (fileHash : String) :
    List StoredObject → Option String × List StorageOp
  | [] => (none, [])
  | o :: rest =>
    if (bucketHead b o.key).map (fun m => m.customMetadata.originalHash) = some fileHash then
      (some o.key, [StorageOp.head o.key])
    else
      let r := scanPage b fileHash rest
      (r.1, StorageOp.head o.key :: r.2)

/-- The `do … while (cursor)` pagination loop of `findDuplicateFile`, with
`limit: 1000` as in the source.  `fuel` only bounds the recursion; the caller
supplies more fuel than there are pages, so the `0` case is never reached. -/
def findDuplicateLoopFuel (b : Bucket) (fileHash pre : String) :
    Nat → Nat → Option String × List StorageOp
  | 0, _ => (none, [])
  | fuel + 1, cursor =>
    let filtered := bucketFiltered b pre
    let page := (filtered.drop cursor).take 1000
    let scanned := scanPage b fileHash page
    let ops := StorageOp.list pre cursor :: scanned.2
    match scanned.1 with
    | some k => (some k, ops)
    | none =>
      if cursor + 1000 < filtered.length then
        let rest := findDuplicateLoopFuel b fileHash pre fuel (cursor + 1000)
        (rest.1, ops ++ rest.2)
      else (none, ops)

/-- `findDuplicateFile(bucket, fileHash, prefix)`: paginated scan of the
partition for the first object whose `originalHash` metadata matches. -/
def findDuplicateFile (b : Bucket) (fileHash pre : String) :
    Option String × List StorageOp :=
  findDuplicateLoopFuel b fileHash pre ((bucketFiltered b pre).length + 1) 0

/-! ## Upload handler (`app.put('/upload')`, lines 98-219) -/

/-- The worker's environment bindings (`Bindings`, lines 14-20). -/
structure Env where
  AUTH_KEY : String
  IMAGE_HOSTNAME : Option String
  FILES_HOSTNAME : Option String
deriving DecidableEq

/-- The `file` part of the multipart body: its `name`, MIME `type`, bytes. -/
structure UploadedFile where
  name : String
  type : String
  content : List Nat
deriving DecidableEq

/-- A `PUT /upload` request: `X-Auth-Key` header value (with `some ""` for a
present-but-empty header), parsed form fields, and the request protocol
(`new URL(c.req.url).protocol`, e.g. `"https:"`). -/
structure UploadRequest where
  xAuthKey : Option String
  file : Option UploadedFile
  filename : Option String
  url_preference : Option String
  protocol : String
deriving DecidableEq

/-- An HTTP response of the upload handler: status and text body. -/
structure UploadResponse where
  status : Nat
  body : String
deriving DecidableEq

/-- Content classification (lines 134-143): leading `image/` → `images`
partition (image-serving host), leading `video/` → `videos`, else `files`. -/
def classifyMime (mimeType : String) : String × Bool :=
  if strLeads "image/" mimeType then ("images", true)
  else if strLeads "video/" mimeType then ("videos", false)
  else ("files", false)

/-- Lines 120-122: `data.filename || data.file.name || 'untitled'`
(JavaScript `||` treats the empty string as absent). -/
def originalFilenameOf (req : UploadRequest) (f : UploadedFile) : String :=
  let providedFilename := match req.filename with | some s => s | none => ""
  let fileName := f.name
  if providedFilename ≠ "" then providedFilename
  else if fileName ≠ "" then fileName
  else "untitled"

/-- The upload handler, middleware included (lines 98-219).  `hashFn` models
hono's `sha256` (`none` = digest unavailable), `nid` the `nanoid()` value,
`now` the `Date.now()` value and `etagOf` the storage-computed entity tag of
a written object.  Returns the response, the resulting bucket and the storage
interactions performed. -/
def handleUpload (env : Env) (hashFn : List Nat → Option String) (nid : String)
    (now : Nat) (etagOf : String → List Nat → String)
    (req : UploadRequest) (b : Bucket) :
    UploadResponse × Bucket × List StorageOp :=
  match req.xAuthKey with
  | none => (⟨401, "Unauthorized"⟩, b, [])
  | some providedKey =>
    if providedKey = "" ∨ providedKey ≠ env.AUTH_KEY then
      (⟨401, "Unauthorized"⟩, b, [])
    else
      match req.file with
      | none => (⟨400, "Missing \"file\" in form data"⟩, b, [])
      | some f =>
        let mimeType := f.type
        let originalFilename := originalFilenameOf req f
        match hashFn f.content with
        | none => (⟨500, "Failed to calculate file hash"⟩, b, [])
        | some fileHash =>
          let pre := (classifyMime mimeType).1
          let isImage := (classifyMime mimeType).2
          let protocol := req.protocol
          let imageHost := env.IMAGE_HOSTNAME.getD "images.localhost"
          let filesHost := env.FILES_HOSTNAME.getD "files.localhost"
          let targetHost := if isImage then imageHost else filesHost
          let baseUrl := protocol ++ "//" ++ targetHost
          let dup := findDuplicateFile b fileHash pre
          let dupKey := dup.1.getD ""
          if dupKey ≠ "" then
            let directUrl := baseUrl ++ "/" ++ dupKey
            if isImage && (req.url_preference == some "Preview-Optimized URL") then
              let imageServeHost := protocol ++ "//" ++ imageHost
              (⟨200, imageServeHost ++ "/cdn-cgi/image/fit=contain,width=1200,format=auto/"
                       ++ (imageServeHost ++ "/" ++ dupKey)⟩, b, dup.2)
            else (⟨200, directUrl⟩, b, dup.2)
          else
            let uniqueFilename := generateUniqueFilename originalFilename nid
            let r2Key := pre ++ "/" ++ uniqueFilename
            let md : FileMetadata := ⟨fileHash, originalFilename, now, mimeType⟩
            let obj : StoredObject := ⟨r2Key, f.content, mimeType, md, etagOf r2Key f.content⟩
            let directUrl := baseUrl ++ "/" ++ r2Key
            let urlPreference := match req.url_preference with
              | some s => if s = "" then "Original URL" else s
              | none => "Original URL"
            if isImage && (urlPreference == "Preview-Optimized URL") then
              let imageServeHost := protocol ++ "//" ++ imageHost
              (⟨200, imageServeHost ++ "/cdn-cgi/image/fit=contain,width=1200,format=auto/"
                       ++ (imageServeHost ++ "/" ++ r2Key)⟩,
               bucketPut b obj, dup.2 ++ [StorageOp.put r2Key])
            else (⟨200, directUrl⟩, bucketPut b obj, dup.2 ++ [StorageOp.put r2Key])

/-! ## Retrieval handler (`app.get('/:type(images|videos|files)/:key')`,
lines 232-251) -/

/-- A retrieval response: status, payload, `Content-Type` and `ETag`. -/
structure GetResponse where
  status : Nat
  body : Option (List Nat)
  contentType : Option String
  etag : Option String
deriving DecidableEq

/-- The `404` response (`c.notFound()`), also used when the route regex does
not match the partition segment. -/
def notFoundResponse : GetResponse := ⟨404, none, none, none⟩

/-- The retrieval handler: the route regex constrains the partition to
`images|videos|files` (anything else falls through to the router's 404),
then the object at `<partition>/<key>` is fetched and served with its stored
content type and entity tag. -/
def handleGet (b : Bucket) (ty : String) (key : String) : GetResponse :=
  if ty = "images" ∨ ty = "videos" ∨ ty = "files" then
    match bucketGet b (ty ++ "/" ++ key) with
    | none => notFoundResponse
    | some o => ⟨200, some o.payload, some o.contentType, some o.etag⟩
  else notFoundResponse

/-- The URL the upload handler responds with, as a function of protocol,
hosts, image classification, the transformed-delivery preference and the
object key.  Both response branches of the handler produce this shape. -/
def urlFor (protocol imageHost filesHost : String) (isImage wantsT : Bool)
    (key : String) : String :=
  if isImage && wantsT then
    (protocol ++ "//" ++ imageHost) ++ "/cdn-cgi/image/fit=contain,width=1200,format=auto/"
      ++ ((protocol ++ "//" ++ imageHost) ++ "/" ++ key)
  else (protocol ++ "//" ++ (if isImage then imageHost else filesHost)) ++ "/" ++ key

/-! ## Concrete instances used in witnesses and counterexamples -/

/-- Environment with a non-empty secret, hostnames left to their defaults. -/
def envW : Env := ⟨"sec", none, none⟩

/-- A constant stand-in for the SHA-256 digest. -/
def hashFnW : List Nat → Option String := fun _ => some "H"

/-- A constant stand-in for the storage entity tag. -/
def etagW : String → List Nat → String := fun _ _ => "E"

/-- First upload request of the dedup witness. -/
def reqW1 : UploadRequest := ⟨some "sec", some ⟨"a.txt", "text/plain", [1, 2]⟩, none, none, "https:"⟩

/-- Second upload request of the dedup witness: same bytes, another name. -/
def reqW2 : UploadRequest := ⟨some "sec", some ⟨"b.txt", "text/plain", [1, 2]⟩, none, none, "https:"⟩

/-- An image upload request used by several witnesses. -/
def reqWimg : UploadRequest :=
  ⟨some "sec", some ⟨"pic.png", "image/png", [7]⟩, none, some "Preview-Optimized URL", "https:"⟩

/-- Environment of the auth-gate counterexample: the configured secret is the
empty string. -/
def envC8 : Env := ⟨"", none, none⟩

/-- Request of the auth-gate counterexample: the `X-Auth-Key` header is
present and equals the configured (empty) secret exactly. -/
def reqC8 : UploadRequest := ⟨some "", some ⟨"a.txt", "text/plain", [0]⟩, none, none, "https:"⟩

/-- Environment of the extension-inference counterexample. -/
def envC4 : Env := ⟨"secret", none, none⟩

/-- Request of the extension-inference counterexample: the filename sanitizes
to the empty string while the MIME type has a well-known extension. -/
def reqC4 : UploadRequest := ⟨some "secret", some ⟨"@@@", "image/png", [0]⟩, none, none, "https:"⟩

/-- A two-object bucket with distinct keys for the duplicate-detector witness. -/
def bucketW : Bucket :=
  [⟨"files/one_A.txt", [1], "text/plain", ⟨"h1", "one.txt", 1, "text/plain"⟩, "e1"⟩,
   ⟨"files/two_B.txt", [2], "text/plain", ⟨"h2", "two.txt", 2, "text/plain"⟩, "e2"⟩]

/-! ## Lemmas: characters and the sanitizer -/

/-- A sanitizer-safe character is not a slash. -/
lemma safe_not_slash {c : Char} (h : isSafeChar c = true) : c ≠ '/' := by
  intro he
  subst he
  revert h
  decide

/-- A sanitizer-safe character is not JavaScript whitespace. -/
lemma safe_not_ws {c : Char} (h : isSafeChar c = true) : isJsWs c = false := by
  by_contra hws
  rw [Bool.not_eq_false] at hws
  have hmem : c.toNat ∈ jsWsVals := by simpa [isJsWs] using hws
  simp only [isSafeChar, Bool.or_eq_true, Bool.and_eq_true, decide_eq_true_eq,
    beq_iff_eq] at h
  simp only [jsWsVals, List.mem_cons, List.not_mem_nil, or_false] at hmem
  omega

/-- Unfolding of the sanitizer as a character-list pipeline. -/
lemma sanitizeFilename_toList (s : String) :
    (sanitizeFilename s).toList
      = ((collapseWs (afterLastSlash s.toList)).filter isSafeChar).take 100 := rfl

/-- Every character of a sanitized name lies in `[a-zA-Z0-9_.-]`. -/
lemma sanitize_chars_safe (s : String) :
    ∀ c ∈ (sanitizeFilename s).toList, isSafeChar c = true := by
  intro c hc
  rw [sanitizeFilename_toList] at hc
  exact (List.mem_filter.mp (List.take_subset _ _ hc)).2

/-- A sanitized name has at most 100 characters. -/
lemma sanitize_length_le (s : String) : (sanitizeFilename s).toList.length ≤ 100 := by
  rw [sanitizeFilename_toList, List.length_take]
  omega

/-- Splitting at the last slash is the identity on slash-free lists. -/
lemma afterLastSlash_id {l : List Char} (h : ∀ c ∈ l, c ≠ '/') :
    afterLastSlash l = l := by
  unfold afterLastSlash
  rw [List.takeWhile_eq_self_iff.mpr, List.reverse_reverse]
  intro c hc
  simpa using h c (List.mem_reverse.mp hc)

/-- Whitespace collapsing is the identity on whitespace-free lists. -/
lemma collapseWsAux_id {l : List Char} (h : ∀ c ∈ l, isJsWs c = false) :
    ∀ fl, collapseWsAux l fl = l := by
  induction l with
  | nil => intro fl; rfl
  | cons c rest ih =>
    intro fl
    have hc := h c (by simp)
    simp only [collapseWsAux, hc, Bool.false_eq_true, if_false]
    rw [ih (fun x hx => h x (by simp [hx])) false]

/-- The sanitizer is the identity on strings that are already sanitized. -/
lemma sanitize_id_of_safe {o : String} (hsafe : ∀ c ∈ o.toList, isSafeChar c = true)
    (hlen : o.toList.length ≤ 100) : sanitizeFilename o = o := by
  show String.mk (((collapseWs (afterLastSlash o.toList)).filter isSafeChar).take 100) = o
  rw [afterLastSlash_id (fun c hc => safe_not_slash (hsafe c hc))]
  rw [show collapseWs o.toList = o.toList from
    collapseWsAux_id (fun c hc => safe_not_ws (hsafe c hc)) false]
  rw [List.filter_eq_self.mpr hsafe, List.take_of_length_le hlen]
  exact String.ext rfl

/-- C10: applying the sanitizer to its own output changes nothing. -/
lemma sanitize_fixed (s : String) :
    sanitizeFilename (sanitizeFilename s) = sanitizeFilename s :=
  sanitize_id_of_safe (sanitize_chars_safe s) (sanitize_length_le s)

/-- C10 (sanitizer idempotence): `sanitizeFilename` is idempotent, because its
output is already a fixed point: every character is in `[a-zA-Z0-9_.-]` (hence
no `/` and no whitespace) and the length is at most 100. -/
theorem sanitizer_idempotent (s : String) :
    sanitizeFilename (sanitizeFilename s) = sanitizeFilename s ∧
    (∀ c ∈ (sanitizeFilename s).toList, isSafeChar c = true) ∧
    (sanitizeFilename s).toList.length ≤ 100 :=
  ⟨sanitize_fixed s, sanitize_chars_safe s, sanitize_length_le s⟩

/-- Witness for C10 at a concrete input. -/
theorem sanitizer_idempotent_witness :
    sanitizeFilename (sanitizeFilename "a b/c?d e.png") = sanitizeFilename "a b/c?d e.png" ∧
    isSafeChar 'c' = true :=
  ⟨(sanitizer_idempotent "a b/c?d e.png").1,
   (sanitizer_idempotent "a b/c?d e.png").2.1 'c' (by decide)⟩

/-- C5 (sanitizer contract): every output character is in `[a-zA-Z0-9_.-]`
(in particular no path separator survives), the output has at most 100
characters, and the spec's concrete example sanitizes as stated, splitting
into basename `filename_withsymbols_spaced_` and extension `.txt`. -/
theorem filename_sanitizer_contract :
    (∀ s : String, ∀ c ∈ (sanitizeFilename s).toList, isSafeChar c = true ∧ c ≠ '/') ∧
    (∀ s : String, (sanitizeFilename s).toList.length ≤ 100) ∧
    sanitizeFilename "file@name with$symbols& spaced .txt"
      = "filename_withsymbols_spaced_.txt" ∧
    baseFromName (sanitizeFilename "file@name with$symbols& spaced .txt").toList
      = "filename_withsymbols_spaced_".toList ∧
    extFromName (sanitizeFilename "file@name with$symbols& spaced .txt").toList
      = ".txt".toList := by
  refine ⟨?_, sanitize_length_le, by decide, by decide, by decide⟩
  intro s c hc
  exact ⟨sanitize_chars_safe s c hc, safe_not_slash (sanitize_chars_safe s c hc)⟩

/-- Witness for C5 at a concrete input. -/
theorem filename_sanitizer_contract_witness :
    isSafeChar 'b' = true ∧ 'b' ≠ '/' :=
  filename_sanitizer_contract.1 "a/b" 'b' (by decide)

/-! ## Lemmas: extension inference -/

/-- Every MIME type in the hono table contains a slash. -/
lemma baseMimes_vals_slash : ∀ p ∈ baseMimes, '/' ∈ p.2.toList := by decide

/-- The MIME-type → extension lookup never succeeds on a slash-free string. -/
lemma getExtension_no_slash {s : String} (h : ∀ c ∈ s.toList, c ≠ '/') :
    getExtension s = none := by
  unfold getExtension
  cases hf : baseMimes.find? (fun p => p.2 == s) with
  | none => rfl
  | some p =>
    have hp : p.2 = s := by simpa using List.find?_some hf
    have hslash := baseMimes_vals_slash p (List.mem_of_find?_eq_some hf)
    rw [hp] at hslash
    exact absurd rfl (h '/' hslash)

/-- The basename extracted from a sanitized name only has its characters. -/
lemma baseFromName_subset (l : List Char) : ∀ c ∈ baseFromName l, c ∈ l := by
  intro c hc
  simp only [baseFromName] at hc
  split at hc
  · exact hc
  · exact List.take_subset _ _ hc

/-- The lookup `generateUniqueFilename` performs returns `none` on every
sanitized basename. -/
lemma mime_lookup_dead (name : String) :
    getExtension (String.mk (baseFromName (sanitizeFilename name).toList)) = none := by
  apply getExtension_no_slash
  intro c hc
  have h1 : c ∈ (sanitizeFilename name).toList :=
    baseFromName_subset _ c hc
  exact safe_not_slash (sanitize_chars_safe name c h1)

/-- C4 (amended): the key's extension comes only from the sanitized name's
trailing `.ext`; the MIME-table lookup the code performs is applied to the
sanitized basename rather than to the upload's MIME type and never succeeds,
so an upload whose sanitized name is empty gets the key `_<shortid>` with no
extension, whatever its MIME type. -/
theorem unique_key_extension (name nid : String) :
    getExtension (String.mk (baseFromName (sanitizeFilename name).toList)) = none ∧
    generateUniqueFilename name nid = String.mk
      ((if (baseFromName (sanitizeFilename name).toList).getLast? == some '.'
           && (extFromName (sanitizeFilename name).toList).isEmpty
        then (baseFromName (sanitizeFilename name).toList).dropLast
        else baseFromName (sanitizeFilename name).toList)
       ++ '_' :: nid.toList ++ extFromName (sanitizeFilename name).toList) ∧
    (sanitizeFilename name = "" → generateUniqueFilename name nid = "_" ++ nid) := by
  have hdead := mime_lookup_dead name
  have hmain : generateUniqueFilename name nid = String.mk
      ((if (baseFromName (sanitizeFilename name).toList).getLast? == some '.'
           && (extFromName (sanitizeFilename name).toList).isEmpty
        then (baseFromName (sanitizeFilename name).toList).dropLast
        else baseFromName (sanitizeFilename name).toList)
       ++ '_' :: nid.toList ++ extFromName (sanitizeFilename name).toList) := by
    show String.mk _ = String.mk _
    rw [show (if (extFromName (sanitizeFilename name).toList).isEmpty then
          match getExtension (String.mk (baseFromName (sanitizeFilename name).toList)) with
          | some me => '.' :: me.toList
          | none => ([] : List Char)
        else extFromName (sanitizeFilename name).toList)
        = extFromName (sanitizeFilename name).toList from ?_]
    · rw [hdead]
      by_cases he : (extFromName (sanitizeFilename name).toList).isEmpty
      · rw [if_pos he]
        exact (List.isEmpty_iff.mp he).symm
      · rw [if_neg he]
  refine ⟨hdead, hmain, ?_⟩
  intro h0
  rw [hmain, h0]
  apply String.ext
  have hb : baseFromName ("" : String).toList = [] := rfl
  have hx : extFromName ("" : String).toList = [] := rfl
  rw [hb, hx]
  rw [show (([] : List Char).getLast? == some '.' && ([] : List Char).isEmpty) = false from rfl]
  simp only [Bool.false_eq_true, if_false, List.nil_append, List.append_nil]
  rw [String.data_append]
  rfl

/-- Witness for C4's amended statement at a concrete input. -/
theorem unique_key_extension_witness :
    generateUniqueFilename "@@@" "abc123" = "_" ++ "abc123" :=
  (unique_key_extension "@@@" "abc123").2.2 (by decide)

/-- C4 counterexample: an authorized `image/png` upload whose filename
sanitizes to the empty string is stored under key `images/_abc123`, which has
no extension at all, although the MIME type `image/png` has the well-known
extension `png` in the lookup table — refuting the claim that the extension
is inferred from the MIME type and that the key has the form
`_<shortid>.<ext>`. -/
theorem unique_key_mime_counterexample :
    ((handleUpload envC4 (fun _ => some "h0") "abc123" 0 (fun _ _ => "e") reqC4 []).2.1.map
        (fun o => o.key) = ["images/_abc123"]) ∧
    getExtension "image/png" = some "png" ∧
    ∀ c ∈ ("_abc123").toList, c ≠ '.' := by
  refine ⟨by decide, by decide, by decide⟩

/-! ## Lemmas: bucket lookups and the duplicate scan -/

/-- With pairwise-distinct keys, `head` on a listed key returns that object. -/
lemma bucketHead_of_mem {b : Bucket} {o : StoredObject}
    (hnd : (b.map (fun x => x.key)).Nodup) (ho : o ∈ b) :
    bucketHead b o.key = some o := by
  induction b with
  | nil => cases ho
  | cons x t ih =>
    have hnd' : (∀ y ∈ t, ¬y.key = x.key) ∧ (List.map (fun x => x.key) t).Nodup := by
      simpa using hnd
    rcases List.mem_cons.mp ho with rfl | hmem
    · simp [bucketHead, List.find?_cons_of_pos]
    · have hx : (x.key == o.key) = false := by
        rw [beq_eq_false_iff_ne]
        intro he
        exact hnd'.1 o hmem he.symm
      simpa [bucketHead, List.find?_cons_of_neg, hx] using ih hnd'.2 hmem

/-- The page scan returns the first listed key whose metadata hash matches. -/
lemma scanPage_fst {b : Bucket} {fileHash : String} (page : List StoredObject)
    (hnd : (b.map (fun x => x.key)).Nodup) (hsub : ∀ o ∈ page, o ∈ b) :
    (scanPage b fileHash page).1
      = (page.find? (fun o => o.customMetadata.originalHash == fileHash)).map
          (fun o => o.key) := by
  induction page with
  | nil => rfl
  | cons o rest ih =>
    have hh : bucketHead b o.key = some o := bucketHead_of_mem hnd (hsub o (by simp))
    by_cases hmatch : o.customMetadata.originalHash = fileHash
    · simp [scanPage, hh, hmatch, List.find?_cons_of_pos]
    · have hb : (o.customMetadata.originalHash == fileHash) = false :=
        beq_eq_false_iff_ne.mpr hmatch
      simp only [scanPage, hh, Option.map_some']
      rw [if_neg (by simpa using hmatch)]
      rw [List.find?_cons_of_neg _ (by simp [hb])]
      exact ih (fun x hx => hsub x (by simp [hx]))

/-- The page scan performs no writes. -/
lemma scanPage_no_put {b : Bucket} {fileHash : String} (page : List StoredObject) :
    ∀ op ∈ (scanPage b fileHash page).2, isPutOp op = false := by
  induction page with
  | nil => intro op hop; cases hop
  | cons o rest ih =>
    intro op hop
    simp only [scanPage] at hop
    split at hop
    · simp only [List.mem_singleton] at hop
      subst hop
      rfl
    · rcases List.mem_cons.mp hop with rfl | h2
      · rfl
      · exact ih op h2

/-- If the page scan succeeds, the key belongs to a listed object. -/
lemma scanPage_some_mem {b : Bucket} {fileHash k : String} (page : List StoredObject)
    (h : (scanPage b fileHash page).1 = some k) : ∃ o ∈ page, o.key = k := by
  induction page with
  | nil => cases h
  | cons o rest ih =>
    simp only [scanPage] at h
    split at h
    · exact ⟨o, by simp, Option.some.inj h⟩
    · rcases ih h with ⟨o', ho', hk⟩
      exact ⟨o', by simp [ho'], hk⟩

/-- The paginated loop, from any cursor and with enough fuel, finds the first
match in the remainder of the partition listing. -/
lemma findDuplicateLoopFuel_fst {b : Bucket} {fileHash pre : String}
    (hnd : (b.map (fun x => x.key)).Nodup) :
    ∀ fuel cursor, (bucketFiltered b pre).length ≤ cursor + 1000 * fuel →
      (findDuplicateLoopFuel b fileHash pre fuel cursor).1
        = (((bucketFiltered b pre).drop cursor).find?
            (fun o => o.customMetadata.originalHash == fileHash)).map (fun o => o.key) := by
  intro fuel
  induction fuel with
  | zero =>
    intro cursor hle
    rw [List.drop_eq_nil_of_le (by omega)]
    rfl
  | succ fuel ih =>
    intro cursor hle
    have hsub : ∀ o ∈ ((bucketFiltered b pre).drop cursor).take 1000, o ∈ b := by
      intro o ho
      exact List.mem_of_mem_filter (List.drop_subset _ _ (List.take_subset _ _ ho))
    have hscan := @scanPage_fst b fileHash
      (((bucketFiltered b pre).drop cursor).take 1000) hnd hsub
    have hsplit : (bucketFiltered b pre).drop cursor
        = ((bucketFiltered b pre).drop cursor).take 1000
          ++ ((bucketFiltered b pre).drop cursor).drop 1000 :=
      (List.take_append_drop _ _).symm
    simp only [findDuplicateLoopFuel]
    cases hf : (((bucketFiltered b pre).drop cursor).take 1000).find?
        (fun o => o.customMetadata.originalHash == fileHash) with
    | some o =>
      rw [hscan, hf]
      conv_rhs => rw [hsplit]
      rw [List.find?_append, hf]
      rfl
    | none =>
      rw [hscan, hf]
      simp only [Option.map_none']
      conv_rhs => rw [hsplit]
      rw [List.find?_append, hf]
      simp only [Option.none_or]
      rw [List.drop_drop]
      by_cases hlt : cursor + 1000 < (bucketFiltered b pre).length
      · rw [if_pos hlt]
        exact ih (cursor + 1000) (by omega)
      · rw [if_neg hlt]
        conv_rhs => rw [List.drop_eq_nil_of_le (by omega)]
        rfl

/-- The loop performs only `list` and `head` calls, never a write. -/
lemma findDuplicateLoopFuel_no_put {b : Bucket} {fileHash pre : String} :
    ∀ fuel cursor, ∀ op ∈ (findDuplicateLoopFuel b fileHash pre fuel cursor).2,
      isPutOp op = false := by
  intro fuel
  induction fuel with
  | zero => intro cursor op hop; cases hop
  | succ fuel ih =>
    intro cursor op hop
    simp only [findDuplicateLoopFuel] at hop
    split at hop
    · rcases List.mem_cons.mp hop with rfl | h2
      · rfl
      · exact scanPage_no_put _ op h2
    · split at hop
      · have hop' : op = StorageOp.list pre cursor ∨
            op ∈ (scanPage b fileHash
              (List.take 1000 (List.drop cursor (bucketFiltered b pre)))).2 ∨
            op ∈ (findDuplicateLoopFuel b fileHash pre fuel (cursor + 1000)).2 := by
          simpa using hop
        rcases hop' with rfl | h3 | h3
        · rfl
        · exact scanPage_no_put _ op h3
        · exact ih _ op h3
      · rcases List.mem_cons.mp hop with rfl | h2
        · rfl
        · exact scanPage_no_put _ op h2

/-- If the loop finds a key, it is the key of some object in the partition. -/
lemma findDuplicateLoopFuel_some_mem {b : Bucket} {fileHash pre k : String} :
    ∀ fuel cursor, (findDuplicateLoopFuel b fileHash pre fuel cursor).1 = some k →
      ∃ o ∈ bucketFiltered b pre, o.key = k := by
  intro fuel
  induction fuel with
  | zero => intro cursor h; cases h
  | succ fuel ih =>
    intro cursor h
    simp only [findDuplicateLoopFuel] at h
    split at h
    · rename_i k' hk'
      rcases scanPage_some_mem _ hk' with ⟨o, ho, hkey⟩
      refine ⟨o, ?_, by rw [hkey]; exact Option.some.inj h⟩
      exact List.drop_subset _ _ (List.take_subset _ _ ho)
    · split at h
      · exact ih _ (by simpa using h)
      · cases h

/-- With pairwise-distinct keys, `findDuplicateFile` returns exactly the first
object of the partition listing whose `originalHash` metadata matches. -/
lemma findDuplicateFile_fst {b : Bucket} {fileHash pre : String}
    (hnd : (b.map (fun x => x.key)).Nodup) :
    (findDuplicateFile b fileHash pre).1
      = ((bucketFiltered b pre).find?
          (fun o => o.customMetadata.originalHash == fileHash)).map (fun o => o.key) := by
  have h := @findDuplicateLoopFuel_fst b fileHash pre hnd
    ((bucketFiltered b pre).length + 1) 0 (by omega)
  simpa [findDuplicateFile] using h

/-- `findDuplicateFile` never writes. -/
lemma findDuplicateFile_no_put {b : Bucket} {fileHash pre : String} :
    ∀ op ∈ (findDuplicateFile b fileHash pre).2, isPutOp op = false :=
  findDuplicateLoopFuel_no_put _ _

/-- A key found by `findDuplicateFile` is the key of a listed object. -/
lemma findDuplicateFile_some_mem {b : Bucket} {fileHash pre k : String}
    (h : (findDuplicateFile b fileHash pre).1 = some k) :
    ∃ o ∈ bucketFiltered b pre, o.key = k :=
  findDuplicateLoopFuel_some_mem _ _ h

/-- C2 (Duplicate Detector contract): over a store with pairwise-distinct
keys, the paginated scan returns the first key in listing order whose
`originalHash` metadata equals the input hash, and returns nothing exactly
when no object under the partition carries that hash. -/
theorem duplicate_detector_contract (b : Bucket) (fileHash pre : String)
    (hnd : (b.map (fun x => x.key)).Nodup) :
    (findDuplicateFile b fileHash pre).1
      = ((bucketFiltered b pre).find?
          (fun o => o.customMetadata.originalHash == fileHash)).map (fun o => o.key) ∧
    ((findDuplicateFile b fileHash pre).1 = none ↔
      ∀ o ∈ bucketFiltered b pre, o.customMetadata.originalHash ≠ fileHash) := by
  have h1 := @findDuplicateFile_fst b fileHash pre hnd
  refine ⟨h1, ?_⟩
  rw [h1, Option.map_eq_none', List.find?_eq_none]
  constructor
  · intro h o ho
    simpa using h o ho
  · intro h o ho
    simpa using h o ho

/-- Witness for C2 on a concrete two-object bucket: the match on the second
object is found, and a hash present nowhere yields `none`. -/
theorem duplicate_detector_contract_witness :
    (findDuplicateFile bucketW "h2" "files").1
      = ((bucketFiltered bucketW "files").find?
          (fun o => o.customMetadata.originalHash == "h2")).map (fun o => o.key) ∧
    ((findDuplicateFile bucketW "h9" "files").1 = none ↔
      ∀ o ∈ bucketFiltered bucketW "files", o.customMetadata.originalHash ≠ "h9") :=
  ⟨(duplicate_detector_contract bucketW "h2" "files" (by decide)).1,
   (duplicate_detector_contract bucketW "h9" "files" (by decide)).2⟩

/-! ## Lemmas: writes -/

/-- Any-true split helper: the tail still has a key match when the head has
none. -/
lemma any_tail_of_head_false {x : StoredObject} {t : List StoredObject} {o : StoredObject}
    (hany : ((x :: t).any fun y => y.key == o.key) = true)
    (hx : ¬(x.key == o.key) = true) :
    (t.any fun y => y.key == o.key) = true := by
  rcases List.any_eq_true.mp hany with ⟨y, hy, hpy⟩
  rcases List.mem_cons.mp hy with rfl | hyt
  · exact absurd hpy hx
  · exact List.any_eq_true.mpr ⟨y, hyt, hpy⟩

/-- Overwriting the matching key makes the written object findable. -/
lemma find?_map_repl (b : List StoredObject) (o : StoredObject)
    (hany : (b.any fun x => x.key == o.key) = true) :
    (b.map (fun x => if x.key == o.key then o else x)).find?
        (fun x => x.key == o.key) = some o := by
  induction b with
  | nil => cases hany
  | cons x t ih =>
    rw [List.map_cons]
    by_cases hx : (x.key == o.key) = true
    · rw [if_pos hx]
      exact List.find?_cons_of_pos _ (by simp)
    · rw [if_neg hx]
      rw [List.find?_cons_of_neg _ (by exact hx)]
      exact ih (any_tail_of_head_false hany hx)

/-- After `put`, `get` on the written key returns the written object. -/
lemma bucketPut_get_self (b : Bucket) (o : StoredObject) :
    bucketGet (bucketPut b o) o.key = some o := by
  unfold bucketGet bucketPut
  by_cases hany : (b.any fun x => x.key == o.key) = true
  · rw [if_pos hany]
    exact find?_map_repl b o hany
  · rw [if_neg hany, List.find?_append]
    have hnone : b.find? (fun x => x.key == o.key) = none := by
      rw [List.find?_eq_none]
      intro x hx h
      exact hany (List.any_eq_true.mpr ⟨x, hx, h⟩)
    rw [hnone, List.find?_cons_of_pos _ (by simp)]
    rfl

/-- `put` preserves pairwise-distinct keys. -/
lemma bucketPut_keys_nodup {b : Bucket} (o : StoredObject)
    (hnd : (b.map (fun x => x.key)).Nodup) :
    ((bucketPut b o).map (fun x => x.key)).Nodup := by
  unfold bucketPut
  by_cases hany : (b.any fun x => x.key == o.key) = true
  · rw [if_pos hany, List.map_map]
    have he : ∀ x ∈ b,
        ((fun x => x.key) ∘ fun x => if x.key == o.key then o else x) x
          = (fun x => x.key) x := by
      intro x hx
      by_cases h : (x.key == o.key) = true
      · simp only [Function.comp_apply, if_pos h]
        exact (beq_iff_eq.mp h).symm
      · simp only [Function.comp_apply, if_neg h]
    rw [List.map_congr_left he]
    exact hnd
  · rw [if_neg hany, List.map_append]
    refine List.Nodup.append hnd (List.nodup_singleton _) ?_
    intro a ha hb
    simp only [List.map_cons, List.map_nil, List.mem_singleton] at hb
    subst hb
    rcases List.mem_map.mp ha with ⟨x, hx, hxe⟩
    exact hany (List.any_eq_true.mpr ⟨x, hx, beq_iff_eq.mpr hxe⟩)

/-- Replacement is the identity when no key matches. -/
lemma map_repl_id {t : List StoredObject} {o : StoredObject}
    (h : ∀ y ∈ t, ¬(y.key == o.key) = true) :
    t.map (fun x => if x.key == o.key then o else x) = t := by
  have he : ∀ y ∈ t, (fun x => if x.key == o.key then o else x) y = id y := by
    intro y hy
    simp only [if_neg (h y hy), id]
  rw [List.map_congr_left he, List.map_id]

/-- `find?` is the head of `filter`. -/
lemma find?_eq_head_filter {α : Type} (p : α → Bool) (l : List α) :
    l.find? p = (l.filter p).head? := by
  induction l with
  | nil => rfl
  | cons x t ih =>
    by_cases h : p x = true
    · rw [List.find?_cons_of_pos _ (by exact h), List.filter_cons_of_pos (by exact h)]
      rfl
    · rw [List.find?_cons_of_neg _ (by exact h), List.filter_cons_of_neg (by exact h)]
      exact ih

/-! ## Lemmas: keys, classification, preferences -/

/-- A list leads any of its extensions. -/
lemma listLeads_append (p t : List Char) : listLeads p (p ++ t) = true := by
  induction p with
  | nil => rfl
  | cons c cs ih => simp [listLeads, ih]

/-- `toList` distributes over string append. -/
lemma str_toList_append (a b : String) : (a ++ b).toList = a.toList ++ b.toList :=
  String.data_append a b

/-- Every generated storage key starts with its partition segment. -/
lemma strLeads_key (pre s : String) : strLeads pre (pre ++ "/" ++ s) = true := by
  unfold strLeads
  rw [str_toList_append, str_toList_append, List.append_assoc]
  exact listLeads_append _ _

/-- A storage key `<partition>/<name>` is never the empty string. -/
lemma key_ne_empty (a b : String) : a ++ "/" ++ b ≠ "" := by
  intro h
  have hd := congrArg String.toList h
  rw [str_toList_append, str_toList_append] at hd
  rw [show ("/" : String).toList = ['/'] from rfl] at hd
  rw [show ("" : String).toList = [] from rfl] at hd
  simp [List.append_eq_nil] at hd

/-- The classifier can only produce the three partitions. -/
lemma classify_cases (m : String) :
    (classifyMime m).1 = "images" ∨ (classifyMime m).1 = "videos"
      ∨ (classifyMime m).1 = "files" := by
  unfold classifyMime
  by_cases h1 : strLeads "image/" m = true
  · simp [h1]
  · by_cases h2 : strLeads "video/" m = true
    · simp [h1, h2]
    · simp [h1, h2]

/-- The image flag is determined by the partition. -/
lemma classify_snd (m : String) :
    (classifyMime m).2 = ((classifyMime m).1 == "images") := by
  unfold classifyMime
  by_cases h1 : strLeads "image/" m = true
  · simp [h1]
  · by_cases h2 : strLeads "video/" m = true
    · simp [h1, h2]
    · simp [h1, h2]

/-- An object listed under a classified partition has a non-empty key. -/
lemma mem_filtered_key_ne_empty {b : Bucket} {o : StoredObject} {m : String}
    (ho : o ∈ bucketFiltered b (classifyMime m).1) : o.key ≠ "" := by
  have hl : strLeads (classifyMime m).1 o.key = true := (List.mem_filter.mp ho).2
  intro he
  rw [he] at hl
  rcases classify_cases m with h | h | h <;> rw [h] at hl <;> exact absurd hl (by decide)

/-- The defaulted `url_preference` check of the write branch agrees with the
raw check of the duplicate branch. -/
lemma pref_beq (p : Option String) :
    ((match p with
      | some s => if s = "" then "Original URL" else s
      | none => "Original URL") == "Preview-Optimized URL")
      = (p == some "Preview-Optimized URL") := by
  cases p with
  | none => decide
  | some s =>
    show ((if s = "" then "Original URL" else s) == "Preview-Optimized URL")
        = (some s == some "Preview-Optimized URL")
    by_cases h : s = ""
    · subst h
      decide
    · rw [if_neg h]
      rfl

/-! ## Lemmas: partition contents after a write -/

/-- After overwriting the key-matching object with `o`, the partition's
hash-matching objects are exactly `[o]`, provided keys are pairwise distinct
and no object of the partition matched the hash before. -/
lemma hash_filter_map_repl {o : StoredObject} {pre h : String}
    (hkey : strLeads pre o.key = true) (hh : o.customMetadata.originalHash = h) :
    ∀ b : List StoredObject,
      (b.map (fun x => x.key)).Nodup →
      (b.any fun x => x.key == o.key) = true →
      (∀ x ∈ b.filter (fun x => strLeads pre x.key),
        (x.customMetadata.originalHash == h) = false) →
      ((b.map (fun x => if x.key == o.key then o else x)).filter
          (fun x => strLeads pre x.key)).filter
            (fun x => x.customMetadata.originalHash == h) = [o] := by
  intro b
  induction b with
  | nil => intro _ hany _; cases hany
  | cons x t ih =>
    intro hnd hany hnone
    have hnd' : (∀ y ∈ t, ¬y.key = x.key) ∧ (List.map (fun x => x.key) t).Nodup := by
      simpa using hnd
    by_cases hx : (x.key == o.key) = true
    · have hxo : x.key = o.key := beq_iff_eq.mp hx
      have htno : ∀ y ∈ t, ¬(y.key == o.key) = true := by
        intro y hy hyo
        exact hnd'.1 y hy (by rw [beq_iff_eq.mp hyo, hxo])
      rw [List.map_cons, if_pos hx, map_repl_id htno]
      rw [List.filter_cons_of_pos (by exact hkey)]
      rw [List.filter_cons_of_pos (by exact beq_iff_eq.mpr hh)]
      have hrest : (t.filter (fun x => strLeads pre x.key)).filter
          (fun x => x.customMetadata.originalHash == h) = [] := by
        rw [List.filter_eq_nil_iff]
        intro y hy
        have := hnone y (by
          rcases List.mem_filter.mp hy with ⟨hyt, hyl⟩
          exact List.mem_filter.mpr ⟨by simp [hyt], hyl⟩)
        simp [this]
      rw [hrest]
    · have hany' := any_tail_of_head_false hany hx
      have hnone' : ∀ y ∈ t.filter (fun x => strLeads pre x.key),
          (y.customMetadata.originalHash == h) = false := by
        intro y hy
        rcases List.mem_filter.mp hy with ⟨hyt, hyl⟩
        exact hnone y (List.mem_filter.mpr ⟨by simp [hyt], hyl⟩)
      rw [List.map_cons, if_neg hx]
      by_cases hfx : strLeads pre x.key = true
      · have hpx := hnone x (List.mem_filter.mpr ⟨by simp, hfx⟩)
        rw [List.filter_cons_of_pos (by exact hfx)]
        rw [List.filter_cons_of_neg (by simp [hpx])]
        exact ih hnd'.2 hany' hnone'
      · rw [List.filter_cons_of_neg (by exact hfx)]
        exact ih hnd'.2 hany' hnone'

/-- Same statement for the append case: the partition previously had no
hash-matching object, and the appended object is the only one. -/
lemma hash_filter_append_new {b : Bucket} {o : StoredObject} {pre h : String}
    (hkey : strLeads pre o.key = true) (hh : o.customMetadata.originalHash = h)
    (hnone : ∀ x ∈ b.filter (fun x => strLeads pre x.key),
      (x.customMetadata.originalHash == h) = false) :
    ((b ++ [o]).filter (fun x => strLeads pre x.key)).filter
        (fun x => x.customMetadata.originalHash == h) = [o] := by
  rw [List.filter_append, List.filter_append]
  rw [List.filter_eq_nil_iff.mpr (by intro x hx; simp [hnone x hx])]
  rw [List.filter_cons_of_pos (by exact hkey), List.filter_nil]
  rw [List.filter_cons_of_pos (by exact beq_iff_eq.mpr hh), List.filter_nil]
  rfl

/-- After the upload handler writes `o` into a partition that had no object
with `o`'s hash, that partition holds exactly one hash-matching object: `o`. -/
lemma dup_filter_after_put {b : Bucket} {o : StoredObject} {pre h : String}
    (hnd : (b.map (fun x => x.key)).Nodup)
    (hkey : strLeads pre o.key = true) (hh : o.customMetadata.originalHash = h)
    (hnone : ∀ x ∈ bucketFiltered b pre,
      (x.customMetadata.originalHash == h) = false) :
    (bucketFiltered (bucketPut b o) pre).filter
        (fun x => x.customMetadata.originalHash == h) = [o] := by
  unfold bucketPut bucketFiltered
  by_cases hany : (b.any fun x => x.key == o.key) = true
  · rw [if_pos hany]
    exact hash_filter_map_repl hkey hh b hnd hany hnone
  · rw [if_neg hany]
    exact hash_filter_append_new hkey hh hnone

/-! ## Lemmas: the two success branches of the upload handler -/

/-- Authorized upload, duplicate scan empty: the handler writes the new
object and answers 200 with the built URL. -/
lemma handleUpload_write_eq
    {env : Env} {hashFn : List Nat → Option String} {nid : String} {now : Nat}
    {etagOf : String → List Nat → String} {req : UploadRequest} {f : UploadedFile}
    {b : Bucket} {fileHash : String}
    (hauth : req.xAuthKey = some env.AUTH_KEY) (hkne : env.AUTH_KEY ≠ "")
    (hfile : req.file = some f) (hhash : hashFn f.content = some fileHash)
    (hdup : (findDuplicateFile b fileHash (classifyMime f.type).1).1 = none) :
    handleUpload env hashFn nid now etagOf req b
      = (⟨200, urlFor req.protocol (env.IMAGE_HOSTNAME.getD "images.localhost")
                (env.FILES_HOSTNAME.getD "files.localhost") (classifyMime f.type).2
                (req.url_preference == some "Preview-Optimized URL")
                ((classifyMime f.type).1 ++ "/" ++
                  generateUniqueFilename (originalFilenameOf req f) nid)⟩,
         bucketPut b
           ⟨(classifyMime f.type).1 ++ "/" ++ generateUniqueFilename (originalFilenameOf req f) nid,
            f.content, f.type, ⟨fileHash, originalFilenameOf req f, now, f.type⟩,
            etagOf ((classifyMime f.type).1 ++ "/"
              ++ generateUniqueFilename (originalFilenameOf req f) nid) f.content⟩,
         (findDuplicateFile b fileHash (classifyMime f.type).1).2
           ++ [StorageOp.put ((classifyMime f.type).1 ++ "/"
                ++ generateUniqueFilename (originalFilenameOf req f) nid)]) := by
  simp only [handleUpload, hauth, hfile, hhash]
  rw [if_neg (by
    rintro (h | h)
    · exact hkne h
    · exact h rfl)]
  rw [hdup]
  rw [show (Option.getD (none : Option String) "") = "" from rfl]
  rw [if_neg (by simp)]
  rw [urlFor, pref_beq]
  by_cases hc : ((classifyMime f.type).2
      && (req.url_preference == some "Preview-Optimized URL")) = true
  · rw [if_pos hc, if_pos hc]
  · rw [if_neg hc, if_neg hc]

/-- Authorized upload, duplicate found (with its always-non-empty key): the
handler answers 200 with the existing object's URL and changes nothing. -/
lemma handleUpload_dup_eq
    {env : Env} {hashFn : List Nat → Option String} {nid : String} {now : Nat}
    {etagOf : String → List Nat → String} {req : UploadRequest} {f : UploadedFile}
    {b : Bucket} {fileHash k : String}
    (hauth : req.xAuthKey = some env.AUTH_KEY) (hkne : env.AUTH_KEY ≠ "")
    (hfile : req.file = some f) (hhash : hashFn f.content = some fileHash)
    (hdup : (findDuplicateFile b fileHash (classifyMime f.type).1).1 = some k)
    (hk : k ≠ "") :
    handleUpload env hashFn nid now etagOf req b
      = (⟨200, urlFor req.protocol (env.IMAGE_HOSTNAME.getD "images.localhost")
                (env.FILES_HOSTNAME.getD "files.localhost") (classifyMime f.type).2
                (req.url_preference == some "Preview-Optimized URL") k⟩,
         b, (findDuplicateFile b fileHash (classifyMime f.type).1).2) := by
  simp only [handleUpload, hauth, hfile, hhash]
  rw [if_neg (by
    rintro (h | h)
    · exact hkne h
    · exact h rfl)]
  rw [hdup]
  rw [show (Option.getD (some k) "") = k from rfl]
  rw [if_pos hk]
  rw [urlFor]
  by_cases hc : ((classifyMime f.type).2
      && (req.url_preference == some "Preview-Optimized URL")) = true
  · rw [if_pos hc, if_pos hc]
  · rw [if_neg hc, if_neg hc]

/-- C7 (partition routing): the storage key of a persisted upload is prefixed
by the partition derived solely from the declared MIME type; classification is
total with exactly three outcomes, decided case-sensitively on the `image/`
and `video/` leading segments (so `Image/png` lands in `files`). -/
theorem partition_routing
    (env : Env) (hashFn : List Nat → Option String) (nid : String) (now : Nat)
    (etagOf : String → List Nat → String) (req : UploadRequest) (f : UploadedFile)
    (b : Bucket) (fileHash : String)
    (hauth : req.xAuthKey = some env.AUTH_KEY) (hkne : env.AUTH_KEY ≠ "")
    (hfile : req.file = some f) (hhash : hashFn f.content = some fileHash)
    (hdup : (findDuplicateFile b fileHash (classifyMime f.type).1).1 = none) :
    (∃ o : StoredObject,
        (handleUpload env hashFn nid now etagOf req b).2.1 = bucketPut b o ∧
        o.key = (classifyMime f.type).1 ++ "/"
          ++ generateUniqueFilename (originalFilenameOf req f) nid) ∧
    (∀ m : String, (classifyMime m).1 = "images" ↔ strLeads "image/" m = true) ∧
    (∀ m : String, (classifyMime m).1 = "videos"
      ↔ strLeads "image/" m = false ∧ strLeads "video/" m = true) ∧
    (∀ m : String, (classifyMime m).1 = "files"
      ↔ strLeads "image/" m = false ∧ strLeads "video/" m = false) ∧
    (classifyMime "image/jpeg").1 = "images" ∧ (classifyMime "video/mp4").1 = "videos" ∧
    (classifyMime "text/plain").1 = "files" ∧ (classifyMime "Image/png").1 = "files" := by
  refine ⟨?_, ?_, ?_, ?_, by decide, by decide, by decide, by decide⟩
  · rw [handleUpload_write_eq hauth hkne hfile hhash hdup]
    exact ⟨_, rfl, rfl⟩
  · intro m
    unfold classifyMime
    by_cases h1 : strLeads "image/" m = true
    · simp [h1]
    · by_cases h2 : strLeads "video/" m = true
      · simp [h1, h2]
      · simp [h1, h2]
  · intro m
    unfold classifyMime
    by_cases h1 : strLeads "image/" m = true
    · simp [h1]
    · by_cases h2 : strLeads "video/" m = true
      · simp [h1, h2]
      · simp [h1, h2]
  · intro m
    unfold classifyMime
    by_cases h1 : strLeads "image/" m = true
    · simp [h1]
    · by_cases h2 : strLeads "video/" m = true
      · simp [h1, h2]
      · simp [h1, h2]

/-- C3 (round-trip): a successful non-duplicate upload with a direct-URL
preference answers 200 with the direct URL of partition/key, and a subsequent
GET on that partition and key returns 200 with byte-identical payload and the
declared MIME type as content type. -/
theorem upload_roundtrip
    (env : Env) (hashFn : List Nat → Option String) (nid : String) (now : Nat)
    (etagOf : String → List Nat → String) (req : UploadRequest) (f : UploadedFile)
    (b : Bucket) (fileHash : String)
    (hauth : req.xAuthKey = some env.AUTH_KEY) (hkne : env.AUTH_KEY ≠ "")
    (hfile : req.file = some f) (hhash : hashFn f.content = some fileHash)
    (hdup : (findDuplicateFile b fileHash (classifyMime f.type).1).1 = none)
    (hpref : req.url_preference ≠ some "Preview-Optimized URL") :
    (handleUpload env hashFn nid now etagOf req b).1.status = 200 ∧
    (handleUpload env hashFn nid now etagOf req b).1.body
      = req.protocol ++ "//"
        ++ (if (classifyMime f.type).2 then env.IMAGE_HOSTNAME.getD "images.localhost"
            else env.FILES_HOSTNAME.getD "files.localhost")
        ++ "/" ++ ((classifyMime f.type).1 ++ "/"
          ++ generateUniqueFilename (originalFilenameOf req f) nid) ∧
    handleGet (handleUpload env hashFn nid now etagOf req b).2.1
        (classifyMime f.type).1 (generateUniqueFilename (originalFilenameOf req f) nid)
      = ⟨200, some f.content, some f.type,
          some (etagOf ((classifyMime f.type).1 ++ "/"
            ++ generateUniqueFilename (originalFilenameOf req f) nid) f.content)⟩ := by
  rw [handleUpload_write_eq hauth hkne hfile hhash hdup]
  have hwt : (req.url_preference == some "Preview-Optimized URL") = false :=
    beq_eq_false_iff_ne.mpr hpref
  refine ⟨rfl, ?_, ?_⟩
  · rw [urlFor, hwt, Bool.and_false]
    rfl
  · unfold handleGet
    rw [if_pos (classify_cases f.type)]
    have hg : bucketGet
        (bucketPut b
          ⟨(classifyMime f.type).1 ++ "/" ++ generateUniqueFilename (originalFilenameOf req f) nid,
           f.content, f.type, ⟨fileHash, originalFilenameOf req f, now, f.type⟩,
           etagOf ((classifyMime f.type).1 ++ "/"
             ++ generateUniqueFilename (originalFilenameOf req f) nid) f.content⟩)
        ((classifyMime f.type).1 ++ "/" ++ generateUniqueFilename (originalFilenameOf req f) nid)
        = some
          ⟨(classifyMime f.type).1 ++ "/" ++ generateUniqueFilename (originalFilenameOf req f) nid,
           f.content, f.type, ⟨fileHash, originalFilenameOf req f, now, f.type⟩,
           etagOf ((classifyMime f.type).1 ++ "/"
             ++ generateUniqueFilename (originalFilenameOf req f) nid) f.content⟩ :=
      bucketPut_get_self b _
    rw [hg]

lemma classify_image_true {m : String} (h : strLeads "image/" m = true) :
    classifyMime m = ("images", true) := by
  unfold classifyMime
  rw [if_pos h]

lemma classify_image_false {m : String} (h : strLeads "image/" m = false) :
    (classifyMime m).2 = false := by
  unfold classifyMime
  rw [if_neg (by simp [h])]
  by_cases h2 : strLeads "video/" m = true
  · rw [if_pos h2]
  · rw [if_neg h2]

/-- C6 (transformed URL shape): an image-classified upload with
`url_preference = "Preview-Optimized URL"` is answered with exactly
`<protocol>//<image-host>/cdn-cgi/image/fit=contain,width=1200,format=auto/<protocol>//<image-host>/<key>`,
while any non-image upload is answered with the plain direct URL on the files
host, the preference being ignored. -/
theorem transformed_url_shape
    (env : Env) (hashFn : List Nat → Option String) (nid : String) (now : Nat)
    (etagOf : String → List Nat → String) (req : UploadRequest) (f : UploadedFile)
    (b : Bucket) (fileHash : String)
    (hauth : req.xAuthKey = some env.AUTH_KEY) (hkne : env.AUTH_KEY ≠ "")
    (hfile : req.file = some f) (hhash : hashFn f.content = some fileHash) :
    (strLeads "image/" f.type = true → req.url_preference = some "Preview-Optimized URL" →
      ∃ key, (handleUpload env hashFn nid now etagOf req b).1.body
        = (req.protocol ++ "//" ++ env.IMAGE_HOSTNAME.getD "images.localhost")
          ++ "/cdn-cgi/image/fit=contain,width=1200,format=auto/"
          ++ ((req.protocol ++ "//" ++ env.IMAGE_HOSTNAME.getD "images.localhost")
            ++ "/" ++ key)) ∧
    (strLeads "image/" f.type = false →
      ∃ key, (handleUpload env hashFn nid now etagOf req b).1.body
        = (req.protocol ++ "//" ++ env.FILES_HOSTNAME.getD "files.localhost")
          ++ "/" ++ key) := by
  cases hdup : (findDuplicateFile b fileHash (classifyMime f.type).1).1 with
  | none =>
    rw [handleUpload_write_eq hauth hkne hfile hhash hdup]
    constructor
    · intro himg hpref
      have h2 : (classifyMime f.type).2 = true := by rw [classify_image_true himg]
      refine ⟨(classifyMime f.type).1 ++ "/"
        ++ generateUniqueFilename (originalFilenameOf req f) nid, ?_⟩
      rw [urlFor]
      have hcond : ((classifyMime f.type).2
          && (req.url_preference == some "Preview-Optimized URL")) = true := by
        rw [h2, hpref]
        decide
      rw [if_pos hcond]
    · intro himg
      have h2 : (classifyMime f.type).2 = false := classify_image_false himg
      refine ⟨(classifyMime f.type).1 ++ "/"
        ++ generateUniqueFilename (originalFilenameOf req f) nid, ?_⟩
      rw [urlFor]
      have hcond : ((classifyMime f.type).2
          && (req.url_preference == some "Preview-Optimized URL")) = false := by
        rw [h2]
        rfl
      rw [if_neg (by simp [hcond]), h2]
      rfl
  | some k =>
    have hk : k ≠ "" := by
      rcases findDuplicateFile_some_mem hdup with ⟨o, ho, hko⟩
      exact hko ▸ mem_filtered_key_ne_empty ho
    rw [handleUpload_dup_eq hauth hkne hfile hhash hdup hk]
    constructor
    · intro himg hpref
      have h2 : (classifyMime f.type).2 = true := by rw [classify_image_true himg]
      refine ⟨k, ?_⟩
      rw [urlFor]
      have hcond : ((classifyMime f.type).2
          && (req.url_preference == some "Preview-Optimized URL")) = true := by
        rw [h2, hpref]
        decide
      rw [if_pos hcond]
    · intro himg
      have h2 : (classifyMime f.type).2 = false := classify_image_false himg
      refine ⟨k, ?_⟩
      rw [urlFor]
      have hcond : ((classifyMime f.type).2
          && (req.url_preference == some "Preview-Optimized URL")) = false := by
        rw [h2]
        rfl
      rw [if_neg (by simp [hcond]), h2]
      rfl

/-- C8 (amended): a `PUT /upload` answers 401 if and only if the `X-Auth-Key`
header is absent, **empty**, or differs from the configured secret (the code
treats an empty header as missing, so an empty configured secret can never
authorize); in that case the body is `Unauthorized`, the store is unchanged
and no storage call at all is made. -/
theorem auth_gate_amended
    (env : Env) (hashFn : List Nat → Option String) (nid : String) (now : Nat)
    (etagOf : String → List Nat → String) (req : UploadRequest) (b : Bucket) :
    ((handleUpload env hashFn nid now etagOf req b).1.status = 401
      ↔ (req.xAuthKey = none ∨ req.xAuthKey = some ""
          ∨ req.xAuthKey ≠ some env.AUTH_KEY)) ∧
    ((req.xAuthKey = none ∨ req.xAuthKey = some ""
        ∨ req.xAuthKey ≠ some env.AUTH_KEY) →
      (handleUpload env hashFn nid now etagOf req b).1 = ⟨401, "Unauthorized"⟩
        ∧ (handleUpload env hashFn nid now etagOf req b).2.1 = b
        ∧ (handleUpload env hashFn nid now etagOf req b).2.2 = []) := by
  cases hak : req.xAuthKey with
  | none =>
    have hred : handleUpload env hashFn nid now etagOf req b
        = (⟨401, "Unauthorized"⟩, b, []) := by
      simp only [handleUpload, hak]
    rw [hred]
    exact ⟨⟨fun _ => Or.inl rfl, fun _ => rfl⟩, fun _ => ⟨rfl, rfl, rfl⟩⟩
  | some pk =>
    by_cases hcond : pk = "" ∨ pk ≠ env.AUTH_KEY
    · have hred : handleUpload env hashFn nid now etagOf req b
          = (⟨401, "Unauthorized"⟩, b, []) := by
        simp only [handleUpload, hak]
        rw [if_pos hcond]
      rw [hred]
      have hrhs : some pk = none ∨ some pk = some ""
          ∨ some pk ≠ some env.AUTH_KEY := by
        rcases hcond with h | h
        · exact Or.inr (Or.inl (by rw [h]))
        · exact Or.inr (Or.inr (fun he => h (Option.some.inj he)))
      exact ⟨⟨fun _ => hrhs, fun _ => rfl⟩, fun _ => ⟨rfl, rfl, rfl⟩⟩
    · push_neg at hcond
      obtain ⟨hne, heq⟩ := hcond
      have hrhs : ¬(some pk = none ∨ some pk = some ""
          ∨ some pk ≠ some env.AUTH_KEY) := by
        rintro (h | h | h)
        · cases h
        · exact hne (Option.some.inj h)
        · exact h (by rw [heq])
      have hst : (handleUpload env hashFn nid now etagOf req b).1.status ≠ 401 := by
        simp only [handleUpload, hak]
        rw [if_neg (by
          rintro (h | h)
          · exact hne h
          · exact h heq)]
        split
        · simp
        · split
          · simp
          · split
            · split
              · simp
              · simp
            · split
              · simp
              · simp
      exact ⟨⟨fun h401 => absurd h401 hst, fun hc => absurd hc hrhs⟩,
             fun hc => absurd hc hrhs⟩

/-- C9 (retrieval dispatch): a GET whose partition segment is outside
`images|videos|files` or whose object is absent yields the one 404 response
(the two cases are indistinguishable); a present object yields 200 with the
stored payload, stored content type and the object's entity tag. -/
theorem retrieval_dispatch (b : Bucket) (ty key : String) :
    ((¬(ty = "images" ∨ ty = "videos" ∨ ty = "files")) →
      handleGet b ty key = ⟨404, none, none, none⟩) ∧
    (bucketGet b (ty ++ "/" ++ key) = none →
      handleGet b ty key = ⟨404, none, none, none⟩) ∧
    (∀ o : StoredObject, (ty = "images" ∨ ty = "videos" ∨ ty = "files") →
      bucketGet b (ty ++ "/" ++ key) = some o →
      handleGet b ty key = ⟨200, some o.payload, some o.contentType, some o.etag⟩) := by
  refine ⟨?_, ?_, ?_⟩
  · intro hty
    unfold handleGet
    rw [if_neg hty]
    rfl
  · intro hget
    unfold handleGet
    by_cases hty : ty = "images" ∨ ty = "videos" ∨ ty = "files"
    · rw [if_pos hty, hget]
      rfl
    · rw [if_neg hty]
      rfl
  · intro o hty hget
    unfold handleGet
    rw [if_pos hty, hget]

/-- C1 (idempotent dedup): starting from a store with pairwise-distinct keys
holding at most one object with the payload's hash in the target partition,
two sequential authorized uploads of the same bytes (any filenames, same
partition classification, same preference, protocol and configuration) return
the same response, the second performs no write and leaves the store
untouched, and the partition then holds exactly one object with that hash. -/
theorem upload_dedup_idempotent
    (env : Env) (hashFn : List Nat → Option String) (etagOf : String → List Nat → String)
    (nid1 nid2 : String) (now1 now2 : Nat)
    (req1 req2 : UploadRequest) (f1 f2 : UploadedFile) (b0 : Bucket) (fileHash : String)
    (hnd : (b0.map (fun o => o.key)).Nodup)
    (hauth1 : req1.xAuthKey = some env.AUTH_KEY)
    (hauth2 : req2.xAuthKey = some env.AUTH_KEY)
    (hkne : env.AUTH_KEY ≠ "")
    (hf1 : req1.file = some f1) (hf2 : req2.file = some f2)
    (hcontent : f2.content = f1.content)
    (hpart : (classifyMime f2.type).1 = (classifyMime f1.type).1)
    (hpref : req2.url_preference = req1.url_preference)
    (hproto : req2.protocol = req1.protocol)
    (hhash : hashFn f1.content = some fileHash)
    (hinv : ((bucketFiltered b0 (classifyMime f1.type).1).filter
        (fun o => o.customMetadata.originalHash == fileHash)).length ≤ 1) :
    (handleUpload env hashFn nid2 now2 etagOf req2
        (handleUpload env hashFn nid1 now1 etagOf req1 b0).2.1).1
      = (handleUpload env hashFn nid1 now1 etagOf req1 b0).1 ∧
    (handleUpload env hashFn nid1 now1 etagOf req1 b0).1.status = 200 ∧
    (handleUpload env hashFn nid2 now2 etagOf req2
        (handleUpload env hashFn nid1 now1 etagOf req1 b0).2.1).2.1
      = (handleUpload env hashFn nid1 now1 etagOf req1 b0).2.1 ∧
    (∀ op ∈ (handleUpload env hashFn nid2 now2 etagOf req2
        (handleUpload env hashFn nid1 now1 etagOf req1 b0).2.1).2.2,
      isPutOp op = false) ∧
    ((bucketFiltered (handleUpload env hashFn nid2 now2 etagOf req2
          (handleUpload env hashFn nid1 now1 etagOf req1 b0).2.1).2.1
        (classifyMime f1.type).1).filter
      (fun o => o.customMetadata.originalHash == fileHash)).length = 1 := by
  have hsnd : (classifyMime f2.type).2 = (classifyMime f1.type).2 := by
    rw [classify_snd, classify_snd, hpart]
  have hhash2 : hashFn f2.content = some fileHash := by
    rw [hcontent]
    exact hhash
  cases hdup : (findDuplicateFile b0 fileHash (classifyMime f1.type).1).1 with
  | none =>
    have hw := @handleUpload_write_eq env hashFn nid1 now1 etagOf req1 f1 b0 fileHash
      hauth1 hkne hf1 hhash hdup
    have hfind : (bucketFiltered b0 (classifyMime f1.type).1).find?
        (fun o => o.customMetadata.originalHash == fileHash) = none := by
      have h1 := @findDuplicateFile_fst b0 fileHash (classifyMime f1.type).1 hnd
      rw [hdup] at h1
      exact Option.map_eq_none'.mp h1.symm
    have hnone : ∀ x ∈ bucketFiltered b0 (classifyMime f1.type).1,
        (x.customMetadata.originalHash == fileHash) = false := by
      intro x hx
      have := List.find?_eq_none.mp hfind x hx
      revert this
      cases (x.customMetadata.originalHash == fileHash) <;> simp
    have hkeyLead : strLeads (classifyMime f1.type).1
        ((classifyMime f1.type).1 ++ "/"
          ++ generateUniqueFilename (originalFilenameOf req1 f1) nid1) = true :=
      strLeads_key _ _
    have hnd1 := bucketPut_keys_nodup
      (⟨(classifyMime f1.type).1 ++ "/" ++ generateUniqueFilename (originalFilenameOf req1 f1) nid1,
        f1.content, f1.type, ⟨fileHash, originalFilenameOf req1 f1, now1, f1.type⟩,
        etagOf ((classifyMime f1.type).1 ++ "/"
          ++ generateUniqueFilename (originalFilenameOf req1 f1) nid1) f1.content⟩ : StoredObject)
      hnd
    have hfilter1 := dup_filter_after_put (b := b0)
      (o := ⟨(classifyMime f1.type).1 ++ "/" ++ generateUniqueFilename (originalFilenameOf req1 f1) nid1,
        f1.content, f1.type, ⟨fileHash, originalFilenameOf req1 f1, now1, f1.type⟩,
        etagOf ((classifyMime f1.type).1 ++ "/"
          ++ generateUniqueFilename (originalFilenameOf req1 f1) nid1) f1.content⟩)
      hnd hkeyLead rfl hnone
    have hfind2 : (bucketFiltered (bucketPut b0
        ⟨(classifyMime f1.type).1 ++ "/" ++ generateUniqueFilename (originalFilenameOf req1 f1) nid1,
         f1.content, f1.type, ⟨fileHash, originalFilenameOf req1 f1, now1, f1.type⟩,
         etagOf ((classifyMime f1.type).1 ++ "/"
           ++ generateUniqueFilename (originalFilenameOf req1 f1) nid1) f1.content⟩)
        (classifyMime f1.type).1).find?
          (fun o => o.customMetadata.originalHash == fileHash)
        = some ⟨(classifyMime f1.type).1 ++ "/"
            ++ generateUniqueFilename (originalFilenameOf req1 f1) nid1,
           f1.content, f1.type, ⟨fileHash, originalFilenameOf req1 f1, now1, f1.type⟩,
           etagOf ((classifyMime f1.type).1 ++ "/"
             ++ generateUniqueFilename (originalFilenameOf req1 f1) nid1) f1.content⟩ := by
      rw [find?_eq_head_filter, hfilter1]
      rfl
    have hdup2 : (findDuplicateFile (bucketPut b0
        ⟨(classifyMime f1.type).1 ++ "/" ++ generateUniqueFilename (originalFilenameOf req1 f1) nid1,
         f1.content, f1.type, ⟨fileHash, originalFilenameOf req1 f1, now1, f1.type⟩,
         etagOf ((classifyMime f1.type).1 ++ "/"
           ++ generateUniqueFilename (originalFilenameOf req1 f1) nid1) f1.content⟩)
        fileHash (classifyMime f2.type).1).1
        = some ((classifyMime f1.type).1 ++ "/"
            ++ generateUniqueFilename (originalFilenameOf req1 f1) nid1) := by
      rw [hpart]
      rw [findDuplicateFile_fst hnd1, hfind2]
      rfl
    have hK : ((classifyMime f1.type).1 ++ "/"
        ++ generateUniqueFilename (originalFilenameOf req1 f1) nid1) ≠ "" :=
      key_ne_empty _ _
    have hd2 := @handleUpload_dup_eq env hashFn nid2 now2 etagOf req2 f2
      (bucketPut b0
        ⟨(classifyMime f1.type).1 ++ "/" ++ generateUniqueFilename (originalFilenameOf req1 f1) nid1,
         f1.content, f1.type, ⟨fileHash, originalFilenameOf req1 f1, now1, f1.type⟩,
         etagOf ((classifyMime f1.type).1 ++ "/"
           ++ generateUniqueFilename (originalFilenameOf req1 f1) nid1) f1.content⟩)
      fileHash
      ((classifyMime f1.type).1 ++ "/" ++ generateUniqueFilename (originalFilenameOf req1 f1) nid1)
      hauth2 hkne hf2 hhash2 hdup2 hK
    rw [hw]
    rw [hd2]
    refine ⟨?_, rfl, rfl, ?_, ?_⟩
    · rw [hproto, hpref, hsnd]
    · intro op hop
      exact findDuplicateFile_no_put op hop
    · rw [hfilter1]
      rfl
  | some k =>
    have h1 := @findDuplicateFile_fst b0 fileHash (classifyMime f1.type).1 hnd
    rw [hdup] at h1
    rcases Option.map_eq_some'.mp h1.symm with ⟨o0, hfind0, hko⟩
    have ho0 : o0 ∈ bucketFiltered b0 (classifyMime f1.type).1 :=
      List.mem_of_find?_eq_some hfind0
    have hp0 : (o0.customMetadata.originalHash == fileHash) = true :=
      List.find?_some (p := fun (o : StoredObject) => o.customMetadata.originalHash == fileHash) hfind0
    have hk : k ≠ "" := hko ▸ mem_filtered_key_ne_empty ho0
    have hd1 := @handleUpload_dup_eq env hashFn nid1 now1 etagOf req1 f1 b0 fileHash k
      hauth1 hkne hf1 hhash hdup hk
    have hdup2 : (findDuplicateFile b0 fileHash (classifyMime f2.type).1).1 = some k := by
      rw [hpart]
      exact hdup
    have hd2 := @handleUpload_dup_eq env hashFn nid2 now2 etagOf req2 f2 b0 fileHash k
      hauth2 hkne hf2 hhash2 hdup2 hk
    rw [hd1]
    rw [hd2]
    refine ⟨?_, rfl, rfl, ?_, ?_⟩
    · rw [hproto, hpref, hsnd]
    · intro op hop
      exact findDuplicateFile_no_put op hop
    · show ((bucketFiltered b0 (classifyMime f1.type).1).filter
          (fun o => o.customMetadata.originalHash == fileHash)).length = 1
      have hmem : o0 ∈ (bucketFiltered b0 (classifyMime f1.type).1).filter
          (fun o => o.customMetadata.originalHash == fileHash) :=
        List.mem_filter.mpr ⟨ho0, hp0⟩
      have hpos := List.length_pos.mpr (List.ne_nil_of_mem hmem)
      omega

/-- C8 counterexample: with the configured secret being the empty string and
the request carrying `X-Auth-Key` present and exactly equal to it (the empty
value), the handler still answers `401 Unauthorized`, because the JavaScript
truthiness test `!providedKey` treats an empty header as missing — refuting
the claimed "present and exactly equal ⇒ not 401" direction. -/
theorem auth_gate_counterexample :
    reqC8.xAuthKey = some envC8.AUTH_KEY ∧
    (handleUpload envC8 hashFnW "N" 0 etagW reqC8 []).1 = ⟨401, "Unauthorized"⟩ := by
  exact ⟨by decide, by decide⟩

/-- Witness for C8's amended statement at a concrete input. -/
theorem auth_gate_amended_witness :
    (handleUpload envW hashFnW "N" 0 etagW ⟨none, none, none, none, "https:"⟩ []).1
      = ⟨401, "Unauthorized"⟩ :=
  ((auth_gate_amended envW hashFnW "N" 0 etagW ⟨none, none, none, none, "https:"⟩ []).2
    (Or.inl rfl)).1

/-- Witness for C9 at concrete inputs: unknown partition and present object. -/
theorem retrieval_dispatch_witness :
    handleGet bucketW "documents" "x" = ⟨404, none, none, none⟩ ∧
    handleGet bucketW "files" "one_A.txt"
      = ⟨200, some [1], some "text/plain", some "e1"⟩ :=
  ⟨(retrieval_dispatch bucketW "documents" "x").1 (by decide),
   (retrieval_dispatch bucketW "files" "one_A.txt").2.2
     ⟨"files/one_A.txt", [1], "text/plain", ⟨"h1", "one.txt", 1, "text/plain"⟩, "e1"⟩
     (by decide) (by decide)⟩

/-- Witness for C7 at a concrete input. -/
theorem partition_routing_witness :
    (classifyMime "Image/png").1 = "files" :=
  (partition_routing envW hashFnW "N1" 7 etagW reqW1 ⟨"a.txt", "text/plain", [1, 2]⟩
    [] "H" (by decide) (by decide) (by decide) (by decide)
    (by decide)).2.2.2.2.2.2.2

/-- Witness for C3 at a concrete input. -/
theorem upload_roundtrip_witness :
    handleGet (handleUpload envW hashFnW "N1" 7 etagW reqW1 []).2.1
        (classifyMime "text/plain").1
        (generateUniqueFilename (originalFilenameOf reqW1 ⟨"a.txt", "text/plain", [1, 2]⟩) "N1")
      = ⟨200, some [1, 2], some "text/plain", some "E"⟩ :=
  (upload_roundtrip envW hashFnW "N1" 7 etagW reqW1 ⟨"a.txt", "text/plain", [1, 2]⟩
    [] "H" (by decide) (by decide) (by decide) (by decide)
    (by decide) (by decide)).2.2

/-- Witness for C6 at concrete inputs: transformed image URL and plain file
URL. -/
theorem transformed_url_shape_witness :
    (∃ key, (handleUpload envW hashFnW "N1" 7 etagW reqWimg []).1.body
      = (reqWimg.protocol ++ "//" ++ envW.IMAGE_HOSTNAME.getD "images.localhost")
        ++ "/cdn-cgi/image/fit=contain,width=1200,format=auto/"
        ++ ((reqWimg.protocol ++ "//" ++ envW.IMAGE_HOSTNAME.getD "images.localhost")
          ++ "/" ++ key)) ∧
    (∃ key, (handleUpload envW hashFnW "N1" 7 etagW reqW1 []).1.body
      = (reqW1.protocol ++ "//" ++ envW.FILES_HOSTNAME.getD "files.localhost")
        ++ "/" ++ key) :=
  ⟨(transformed_url_shape envW hashFnW "N1" 7 etagW reqWimg ⟨"pic.png", "image/png", [7]⟩
      [] "H" (by decide) (by decide) (by decide) (by decide)).1 (by decide) (by decide),
   (transformed_url_shape envW hashFnW "N1" 7 etagW reqW1 ⟨"a.txt", "text/plain", [1, 2]⟩
      [] "H" (by decide) (by decide) (by decide) (by decide)).2 (by decide)⟩

/-- Witness for C1 at concrete inputs: the same bytes uploaded twice under
two filenames produce the same response. -/
theorem upload_dedup_idempotent_witness :
    (handleUpload envW hashFnW "N2" 9 etagW reqW2
        (handleUpload envW hashFnW "N1" 7 etagW reqW1 []).2.1).1
      = (handleUpload envW hashFnW "N1" 7 etagW reqW1 []).1 :=
  (upload_dedup_idempotent envW hashFnW etagW "N1" "N2" 7 9 reqW1 reqW2
    ⟨"a.txt", "text/plain", [1, 2]⟩ ⟨"b.txt", "text/plain", [1, 2]⟩ [] "H"
    (by decide) (by decide) (by decide) (by decide) (by decide) (by decide)
    (by decide) (by decide) (by decide) (by decide) (by decide) (by decide)).1
